import Mathlib

/-
Verification of the bit-level CPU arithmetic simulator.

The source represents a machine word as a `Register`: an ordered vector of
ARCHITECTURE (= 16) bits, index 0 being the least significant bit.  We embed a
register as a `List Bool` in LSB-first order; the fixed width of the C++ array
becomes a `length = ARCHITECTURE` hypothesis on the theorems.  The ALU member
functions mutate registers in place and write the four condition flags stored
in the ALU object; we embed each operation as a pure function from the values
of the registers it reads to the values of the registers it writes, paired
with the resulting flag state.  Operations that read a flag before writing it
(INC and DEC preserve CF) additionally take the incoming `Flags`.
-/

namespace CpuSim

/-- Condition flags of the ALU object: carry, zero, sign, overflow. -/
structure Flags where
  CF : Bool
  ZF : Bool
  SF : Bool
  OF : Bool
deriving DecidableEq, Repr

/-- Fixed register width, `constexpr uint8_t ARCHITECTURE = 16` in cpu.hpp. -/
def ARCHITECTURE : Nat := 16

/-- Model of the Register class: the ARCHITECTURE bits, LSB first. -/
abbrev Register := List Bool

/-- Most significant bit, `bits[ARCHITECTURE - 1]` in register.hpp. -/
def MSB (r : Register) : Bool := r.getD (ARCHITECTURE - 1) false

/-- Unsigned integer value of a register, bit i carrying place value 2^i
(the integral conversion operator of register.hpp). -/
def toNat (r : Register) : Nat := r.foldr (fun b acc => b.toNat + 2 * acc) 0

/-- Register construction from an integer, `bits[i] = value >> i & 1`
(the integral constructor of register.hpp), width given first. -/
def ofNat : Nat → Nat → Register
  | 0, _ => []
  | w + 1, v => decide (v % 2 = 1) :: ofNat w (v / 2)

namespace CombinationalCircuits

/-- Half-adder sum gate, `x ^ y`. -/
def HALF_ADDER_SUM (x y : Bool) : Bool := xor x y

/-- Half-adder carry gate, `x & y`. -/
def HALF_ADDER_CARRY (x y : Bool) : Bool := x && y

/-- Full-adder sum, composed from half-adder gates as in the source. -/
def FULL_ADDER_SUM (x y c : Bool) : Bool :=
  HALF_ADDER_SUM (HALF_ADDER_SUM x y) c

/-- Full-adder carry, composed from half-adder gates as in the source. -/
def FULL_ADDER_CARRY (x y c : Bool) : Bool :=
  HALF_ADDER_CARRY x y || HALF_ADDER_CARRY (HALF_ADDER_SUM x y) c

/-- Full adder returning (SUM, CARRY). -/
def FULL_ADDER (x y c : Bool) : Bool × Bool :=
  (FULL_ADDER_SUM x y c, FULL_ADDER_CARRY x y c)

end CombinationalCircuits

namespace LSU

/-- MOV copies all bits of src into dst; in the value model the new value of
the destination is simply the value of the source. -/
def MOV (dst src : Register) : Register := src

end LSU

namespace ALU

open CombinationalCircuits

/-- Ripple chain of the ADD loop: full adder on each bit pair, threading the
carry, returning the sum bits and the final carry-out. The C++ loop runs over
the fixed indices 0..ARCHITECTURE-1 of both registers; the recursion consumes
both lists in step, so the two agree whenever both registers have length
ARCHITECTURE. -/
def addChain : Register → Register → Bool → Register × Bool
  | [], _, c => ([], c)
  | _ :: _, [], c => ([], c)
  | x :: xs, y :: ys, c =>
    ((FULL_ADDER x y c).1 :: (addChain xs ys (FULL_ADDER x y c).2).1,
      (addChain xs ys (FULL_ADDER x y c).2).2)

/-- Ripple chain of the SUB loop: `FULL_ADDER(lhs[i], ~rhs[i], carry)`. -/
def subChain : Register → Register → Bool → Register × Bool
  | [], _, c => ([], c)
  | _ :: _, [], c => ([], c)
  | x :: xs, y :: ys, c =>
    ((FULL_ADDER x (!y) c).1 :: (subChain xs ys (FULL_ADDER x (!y) c).2).1,
      (subChain xs ys (FULL_ADDER x (!y) c).2).2)

/-- ALU::ADD - ripple-carry addition with carry-in 0, result replacing lhs.
The in-loop accumulation `if (SUM) ZF = false` leaves ZF true exactly when
no result bit is set, embedded here as the negated `any` of the result.
CF is the final carry, SF the result MSB, and
`OF = lhs_MSB_before == rhs_MSB & SF != lhs_MSB_before`. -/
def ADD (lhs rhs : Register) : Register × Flags :=
  let lhsMSBbefore := MSB lhs
  let rhsMSB := MSB rhs
  let r := addChain lhs rhs false
  let sf := MSB r.1
  (r.1, { CF := r.2, ZF := !(r.1.any id), SF := sf,
          OF := (lhsMSBbefore == rhsMSB) && (sf != lhsMSBbefore) })

/-- ALU::SUB - twos-complement subtraction `lhs + ~rhs + 1` (carry-in 1).
CF is the negation of the final carry (borrow indicator), and
`OF = lhs_MSB_before != rhs_MSB & SF != lhs_MSB_before`. -/
def SUB (lhs rhs : Register) : Register × Flags :=
  let lhsMSBbefore := MSB lhs
  let rhsMSB := MSB rhs
  let r := subChain lhs rhs true
  let sf := MSB r.1
  (r.1, { CF := !r.2, ZF := !(r.1.any id), SF := sf,
          OF := (lhsMSBbefore != rhsMSB) && (sf != lhsMSBbefore) })

/-- ALU::CMP - `MOV(temp, lhs); SUB(temp, rhs)`: flags of the subtraction,
with the scratch register receiving the difference.  The prior value of the
scratch register is irrelevant, mirroring that CMP fully overwrites it. -/
def CMP (lhs rhs temp : Register) : Register × Flags :=
  SUB (LSU.MOV temp lhs) rhs

/-- Ripple chain of the INC loop: `FULL_ADDER(reg[i], false, carry)` with the
early exit `if (!CARRY) break` that leaves the remaining bits untouched.
ZF starts true and is cleared by any SUM bit that is set; because the loop can
break early, the threaded zero-accumulator is part of the state. -/
def incChain : Register → Bool → Bool → Register × Bool
  | [], _, zf => ([], zf)
  | x :: xs, c, zf =>
    if (FULL_ADDER x false c).2 then
      ((FULL_ADDER x false c).1 ::
          (incChain xs (FULL_ADDER x false c).2
            (if (FULL_ADDER x false c).1 then false else zf)).1,
        (incChain xs (FULL_ADDER x false c).2
          (if (FULL_ADDER x false c).1 then false else zf)).2)
    else
      ((FULL_ADDER x false c).1 :: xs,
        if (FULL_ADDER x false c).1 then false else zf)

/-- ALU::INC - ripple increment with early termination.  CF is left exactly as
it was (`CF is unaffected, like the x86 INC instruction`); ZF comes from the
loop accumulator, SF is the result MSB and
`OF = MSB_before == false & SF == true`. -/
def INC (f : Flags) (reg : Register) : Register × Flags :=
  let msbBefore := MSB reg
  let r := incChain reg true true
  let sf := MSB r.1
  (r.1, { CF := f.CF, ZF := r.2, SF := sf,
          OF := (msbBefore == false) && (sf == true) })

/-- Ripple chain of the DEC loop: `FULL_ADDER(reg[i], true, carry)` with the
same early exit.  (With carry-in 1 and addend bit 1 every cell returns
carry 1 and sum equal to the input bit, so this chain never changes the
register; the embedding reproduces the source faithfully, bug included.) -/
def decChain : Register → Bool → Bool → Register × Bool
  | [], _, zf => ([], zf)
  | x :: xs, c, zf =>
    if (FULL_ADDER x true c).2 then
      ((FULL_ADDER x true c).1 ::
          (decChain xs (FULL_ADDER x true c).2
            (if (FULL_ADDER x true c).1 then false else zf)).1,
        (decChain xs (FULL_ADDER x true c).2
          (if (FULL_ADDER x true c).1 then false else zf)).2)
    else
      ((FULL_ADDER x true c).1 :: xs,
        if (FULL_ADDER x true c).1 then false else zf)

/-- ALU::DEC - ripple decrement with early termination; CF is left unmodified,
`OF = MSB_before == true && SF == false`. -/
def DEC (f : Flags) (reg : Register) : Register × Flags :=
  let msbBefore := MSB reg
  let r := decChain reg true true
  let sf := MSB r.1
  (r.1, { CF := f.CF, ZF := r.2, SF := sf,
          OF := (msbBefore == true) && (sf == false) })

/-- ALU::NEG - `MOV(temp, zero); SUB(temp, reg); MOV(reg, temp)` followed by
`CMP(reg, zero, temp)`, then `CF = !ZF` and `OF = reg.MSB() && ZF`.
Returns (new reg, new temp, flags). -/
def NEG (reg temp zero : Register) : Register × Register × Flags :=
  let s := SUB (LSU.MOV temp zero) reg
  let regNew := LSU.MOV reg s.1
  let c := CMP regNew zero s.1
  (regNew, c.1, { CF := !c.2.ZF, ZF := c.2.ZF, SF := c.2.SF,
                  OF := MSB regNew && c.2.ZF })

/-- ALU::SHL - logical left shift.  For 0 < count < ARCHITECTURE the source
first saves the shifted-out bit `reg[ARCHITECTURE - count]` into CF, but the
subsequent `CMP(reg, zero, temp)` executes a SUB and reassigns all four flags,
so that saved bit is dead: the CF delivered to the caller is the borrow of
`reg - zero`.  The bulk shift writes bit i of the input to bit i + count and
clears the low `count` bits, which on the LSB-first list is `count` leading
false bits followed by the low `ARCHITECTURE - count` input bits.
Returns (new reg, new temp, flags). -/
def SHL (reg : Register) (count : Nat) (zero temp : Register) :
    Register × Register × Flags :=
  if count = 0 then
    let c := CMP reg zero temp
    (reg, c.1, { CF := false, ZF := c.2.ZF, SF := c.2.SF, OF := false })
  else if ARCHITECTURE ≤ count then
    let regNew := LSU.MOV reg zero
    let c := CMP regNew zero regNew
    (regNew, c.1, { CF := c.2.CF, ZF := c.2.ZF, SF := c.2.SF, OF := false })
  else
    let shifted := List.replicate count false ++ List.take (ARCHITECTURE - count) reg
    let c := CMP shifted zero shifted
    (shifted, c.1,
      { CF := c.2.CF, ZF := c.2.ZF, SF := c.2.SF,
        OF := if count = 1 then xor c.2.SF c.2.CF else false })

/-- One left rotation step of the ROL loop: the MSB `reg[ARCHITECTURE - 1]`
moves to bit 0 and every other bit moves up one place. -/
def rotl1 (l : Register) : Register :=
  l.getD (ARCHITECTURE - 1) false :: l.dropLast

/-- One right rotation step of the ROR loop: bit 0 moves to the top and every
other bit moves down one place. -/
def rotr1 (l : Register) : Register :=
  l.tail ++ [l.headD false]

/-- Iterated left rotation, the `for (c = 0; c < count; c++)` loop of ROL. -/
def rotlN : Nat → Register → Register
  | 0, l => l
  | n + 1, l => rotlN n (rotl1 l)

/-- Iterated right rotation, the loop of ROR. -/
def rotrN : Nat → Register → Register
  | 0, l => l
  | n + 1, l => rotrN n (rotr1 l)

/-- ALU::ROL - rotate left by `count % ARCHITECTURE` single-bit steps.  The
per-step `CF = msb` assignments are overwritten by the closing
`CMP(reg, zero, temp)`; with count reduced to c the final flags are those of
the CMP, with `OF = (c == 1) ? SF ^ CF : false`.
Returns (new reg, new temp, flags). -/
def ROL (reg : Register) (count : Nat) (zero temp : Register) :
    Register × Register × Flags :=
  let c := count % ARCHITECTURE
  if c = 0 then
    let k := CMP reg zero temp
    (reg, k.1, { CF := false, ZF := k.2.ZF, SF := k.2.SF, OF := false })
  else
    let r := rotlN c reg
    let k := CMP r zero temp
    (r, k.1, { CF := k.2.CF, ZF := k.2.ZF, SF := k.2.SF,
               OF := if c = 1 then xor k.2.SF k.2.CF else false })

/-- ALU::ROR - rotate right by `count % ARCHITECTURE` single-bit steps; for a
net rotation of exactly one bit, `OF = reg[ARCHITECTURE-1] ^ reg[ARCHITECTURE-2]`
of the rotated register.  Returns (new reg, new temp, flags). -/
def ROR (reg : Register) (count : Nat) (zero temp : Register) :
    Register × Register × Flags :=
  let c := count % ARCHITECTURE
  if c = 0 then
    let k := CMP reg zero temp
    (reg, k.1, { CF := false, ZF := k.2.ZF, SF := k.2.SF, OF := false })
  else
    let r := rotrN c reg
    let k := CMP r zero temp
    (r, k.1, { CF := k.2.CF, ZF := k.2.ZF, SF := k.2.SF,
               OF := if c = 1 then
                       xor (r.getD (ARCHITECTURE - 1) false)
                           (r.getD (ARCHITECTURE - 2) false)
                     else false })

/-- Body of the MUL loop over the multiplier bits (LSB first): if the current
rhs bit is set, ADD the shifted multiplicand `temp` into the accumulator;
then `SHL(temp, 1, zero, temp)`.  In that aliased SHL call the CMP scratch IS
the shifted register, so the value the object holds afterwards is the one CMP
wrote, namely `shifted - zero`; the second component of the SHL embedding is
exactly that value.  The flags thread through: an ADD rewrites all four, and
the SHL then rewrites all four again. -/
def mulLoop (f : Flags) (lhs temp zero : Register) : List Bool → Register × Register × Flags
  | [] => (lhs, temp, f)
  | b :: bs =>
    let a := if b then ADD lhs temp else (lhs, f)
    let s := SHL temp 1 zero temp
    mulLoop s.2.2 a.1 s.2.1 zero bs

/-- ALU::MUL - shift-and-add: `MOV(temp, lhs); MOV(lhs, zero)`, then the loop
over the ARCHITECTURE multiplier bits.  The C++ loop runs over the indices
0..ARCHITECTURE-1 of rhs; the recursion consumes the rhs bit list, which
agrees whenever rhs has length ARCHITECTURE.
Returns (new lhs, new temp, flags). -/
def MUL (f : Flags) (lhs rhs temp zero : Register) : Register × Register × Flags :=
  mulLoop f (LSU.MOV lhs zero) (LSU.MOV temp lhs) zero rhs

/-- Body of the DIV `while (true)` loop: subtract rhs from temp; on borrow
(CF) add it back and stop, otherwise increment the quotient and repeat.  The
C++ loop terminates after `toNat temp / toNat rhs + 1` iterations whenever the
divisor value is non-zero, so the fuel supplied by DIV (`toNat lhs + 1`)
strictly exceeds the iteration count and the 0-fuel branch is unreachable for
the inputs on which the source loop terminates (divLoop_spec below).
Returns (temp, quotient, flags). -/
def divLoop : Nat → Flags → Register → Register → Register → Register × Register × Flags
  | 0, f, temp, quot, _ => (temp, quot, f)
  | fuel + 1, _, temp, quot, rhs =>
    let s := SUB temp rhs
    if s.2.CF then
      let a := ADD s.1 rhs
      (a.1, quot, a.2)
    else
      let q := INC s.2 quot
      divLoop fuel q.2 s.1 q.1 rhs

/-- ALU::DIV - repeated-subtraction division.  First `CMP(rhs, zero, temp)`;
if ZF, signal division by zero: `MOV(lhs, zero)`, ZF = CF = OF = true,
SF = false.  Otherwise `MOV(quotient, zero); MOV(temp, lhs)`, run the
subtraction loop, then `MOV(lhs, quotient)`, recompute ZF/SF by
`CMP(lhs, zero, temp)` (the dead `SF = lhs.MSB()` store before the CMP is
overwritten by it) and clear CF and OF.
Returns (new lhs, new quotient, new temp, flags). -/
def DIV (lhs rhs quot temp zero : Register) :
    Register × Register × Register × Flags :=
  let c1 := CMP rhs zero temp
  if c1.2.ZF then
    (LSU.MOV lhs zero, quot, c1.1, { CF := true, ZF := true, SF := false, OF := true })
  else
    let L := divLoop (toNat lhs + 1) c1.2 (LSU.MOV temp lhs) (LSU.MOV quot zero) rhs
    let c2 := CMP L.2.1 zero L.1
    (LSU.MOV lhs L.2.1, L.2.1, c2.1,
      { CF := false, ZF := c2.2.ZF, SF := c2.2.SF, OF := false })

end ALU

/-- Value of the all-zero register. -/
def zeroReg : Register := List.replicate ARCHITECTURE false

end CpuSim

/-! ### Basic facts about the register valuation -/

namespace CpuSim

theorem toNat_nil : toNat [] = 0 := rfl

theorem toNat_cons (b : Bool) (l : List Bool) :
    toNat (b :: l) = b.toNat + 2 * toNat l := rfl

theorem toNat_lt (l : List Bool) : toNat l < 2 ^ l.length := by
  induction l with
  | nil => simp [toNat]
  | cons b l ih =>
    have hb : b.toNat ≤ 1 := Bool.toNat_le b
    have hp : (2 : Nat) ^ (b :: l).length = 2 * 2 ^ l.length := by
      rw [List.length_cons, pow_succ, Nat.mul_comm]
    rw [toNat_cons, hp]
    omega

theorem toNat_replicate_false (n : Nat) : toNat (List.replicate n false) = 0 := by
  induction n with
  | zero => rfl
  | succ n ih => simp [List.replicate_succ, toNat_cons, ih]

theorem toNat_eq_zero_iff (l : List Bool) : toNat l = 0 ↔ l.any id = false := by
  induction l with
  | nil => simp [toNat]
  | cons b l ih =>
    cases b <;> simp [toNat_cons, ih] <;> omega

theorem toNat_inj : ∀ {xs ys : List Bool}, xs.length = ys.length →
    toNat xs = toNat ys → xs = ys := by
  intro xs
  induction xs with
  | nil => intro ys h _; cases ys with
    | nil => rfl
    | cons y ys => simp at h
  | cons x xs ih =>
    intro ys h hv
    cases ys with
    | nil => simp at h
    | cons y ys =>
      have hlen : xs.length = ys.length := by simpa using h
      rw [toNat_cons, toNat_cons] at hv
      have hxy : x = y ∧ toNat xs = toNat ys := by
        cases x <;> cases y <;> simp [Bool.toNat] at hv ⊢ <;> omega
      rw [hxy.1, ih hlen hxy.2]

theorem toNat_replicate_eq_zero_of (l : List Bool)
    (h : l.length = ARCHITECTURE) (hv : toNat l = 0) :
    l = zeroReg := by
  have h1 : l.length = zeroReg.length := by simp [zeroReg, h]
  have h2 : toNat l = toNat zeroReg := by
    rw [hv, zeroReg, toNat_replicate_false]
  exact toNat_inj h1 h2

theorem MSB_zeroReg : MSB zeroReg = false := by decide

theorem toNat_zeroReg : toNat zeroReg = 0 := toNat_replicate_false _

/-! ### The ripple-carry chains -/

namespace ALU

open CombinationalCircuits

theorem fullAdder_toNat : ∀ x y c : Bool,
    (FULL_ADDER x y c).1.toNat + 2 * (FULL_ADDER x y c).2.toNat
      = x.toNat + y.toNat + c.toNat := by decide

theorem addChain_length : ∀ (xs ys : List Bool) (c : Bool),
    xs.length = ys.length → (addChain xs ys c).1.length = xs.length := by
  intro xs
  induction xs with
  | nil => intro ys c _; simp [addChain]
  | cons x xs ih =>
    intro ys c h
    cases ys with
    | nil => simp at h
    | cons y ys =>
      have h2 : xs.length = ys.length := by simpa using h
      simp [addChain, ih ys _ h2]

theorem addChain_toNat : ∀ (xs ys : List Bool) (c : Bool),
    xs.length = ys.length →
    toNat (addChain xs ys c).1 + 2 ^ xs.length * ((addChain xs ys c).2).toNat
      = toNat xs + toNat ys + c.toNat := by
  intro xs
  induction xs with
  | nil =>
    intro ys c h
    cases ys with
    | nil => simp [addChain, toNat]
    | cons y ys => simp at h
  | cons x xs ih =>
    intro ys c h
    cases ys with
    | nil => simp at h
    | cons y ys =>
      have h2 : xs.length = ys.length := by simpa using h
      have hfa := fullAdder_toNat x y c
      have ihh := ih ys (FULL_ADDER x y c).2 h2
      simp only [addChain, toNat_cons, List.length_cons]
      rw [pow_succ, Nat.mul_comm (2 ^ xs.length) 2, Nat.mul_assoc]
      omega

theorem addChain_fst_toNat (xs ys : List Bool) (c : Bool)
    (h : xs.length = ys.length) :
    toNat (addChain xs ys c).1
      = (toNat xs + toNat ys + c.toNat) % 2 ^ xs.length := by
  have key := addChain_toNat xs ys c h
  have hlt : toNat (addChain xs ys c).1 < 2 ^ xs.length := by
    have := toNat_lt (addChain xs ys c).1
    rwa [addChain_length xs ys c h] at this
  cases hcar : (addChain xs ys c).2 with
  | false =>
    rw [hcar] at key
    simp only [Bool.toNat_false, Nat.mul_zero, Nat.add_zero] at key
    rw [← key, Nat.mod_eq_of_lt hlt]
  | true =>
    rw [hcar] at key
    simp only [Bool.toNat_true, Nat.mul_one] at key
    rw [← key, Nat.add_mod_right, Nat.mod_eq_of_lt hlt]

theorem addChain_snd (xs ys : List Bool) (c : Bool)
    (h : xs.length = ys.length) :
    (addChain xs ys c).2
      = decide (2 ^ xs.length ≤ toNat xs + toNat ys + c.toNat) := by
  have key := addChain_toNat xs ys c h
  have hlt : toNat (addChain xs ys c).1 < 2 ^ xs.length := by
    have := toNat_lt (addChain xs ys c).1
    rwa [addChain_length xs ys c h] at this
  cases hcar : (addChain xs ys c).2 with
  | false =>
    rw [hcar] at key
    simp only [Bool.toNat_false, Nat.mul_zero, Nat.add_zero] at key
    symm
    simp only [decide_eq_false_iff_not, Nat.not_le]
    omega
  | true =>
    rw [hcar] at key
    simp only [Bool.toNat_true, Nat.mul_one] at key
    symm
    simp only [decide_eq_true_eq]
    omega

theorem subChain_eq : ∀ (xs ys : List Bool) (c : Bool),
    subChain xs ys c = addChain xs (ys.map (fun b => !b)) c := by
  intro xs
  induction xs with
  | nil => intro ys c; cases ys <;> simp [subChain, addChain]
  | cons x xs ih =>
    intro ys c
    cases ys with
    | nil => simp [subChain, addChain]
    | cons y ys => simp [subChain, addChain, ih]

theorem toNat_map_not (l : List Bool) :
    toNat (l.map (fun b => !b)) = 2 ^ l.length - 1 - toNat l := by
  induction l with
  | nil => simp [toNat]
  | cons b l ih =>
    have h1 : (1 : Nat) ≤ 2 ^ l.length := Nat.one_le_two_pow
    have h2 := toNat_lt l
    have hp : (2 : Nat) ^ (b :: l).length = 2 * 2 ^ l.length := by
      rw [List.length_cons, pow_succ, Nat.mul_comm]
    cases b <;> simp [toNat_cons, ih, Bool.toNat, hp] <;> omega

end ALU

end CpuSim

/-! ### Value-level characterisation of ADD, SUB, CMP and INC -/

namespace CpuSim

namespace ALU

open CombinationalCircuits

theorem subChain_length (xs ys : List Bool) (c : Bool)
    (h : xs.length = ys.length) : (subChain xs ys c).1.length = xs.length := by
  rw [subChain_eq]
  exact addChain_length _ _ _ (by simpa using h)

theorem subChain_fst_toNat (xs ys : List Bool) (c : Bool)
    (h : xs.length = ys.length) :
    toNat (subChain xs ys c).1
      = (toNat xs + (2 ^ xs.length - 1 - toNat ys) + c.toNat) % 2 ^ xs.length := by
  rw [subChain_eq, addChain_fst_toNat _ _ _ (by simpa using h), toNat_map_not, h]

theorem subChain_snd (xs ys : List Bool) (c : Bool)
    (h : xs.length = ys.length) :
    (subChain xs ys c).2
      = decide (2 ^ xs.length ≤ toNat xs + (2 ^ xs.length - 1 - toNat ys) + c.toNat) := by
  rw [subChain_eq, addChain_snd _ _ _ (by simpa using h), toNat_map_not, h]

theorem ADD_fst_toNat (lhs rhs : Register) (h : rhs.length = lhs.length) :
    toNat (ADD lhs rhs).1 = (toNat lhs + toNat rhs) % 2 ^ lhs.length := by
  show toNat (addChain lhs rhs false).1 = _
  rw [addChain_fst_toNat _ _ _ h.symm]
  simp [Bool.toNat_false]

theorem ADD_length (lhs rhs : Register) (h : rhs.length = lhs.length) :
    (ADD lhs rhs).1.length = lhs.length := by
  show (addChain lhs rhs false).1.length = _
  exact addChain_length _ _ _ h.symm

theorem ADD_CF (lhs rhs : Register) (h : rhs.length = lhs.length) :
    (ADD lhs rhs).2.CF = decide (2 ^ lhs.length ≤ toNat lhs + toNat rhs) := by
  show (addChain lhs rhs false).2 = _
  rw [addChain_snd _ _ _ h.symm]
  simp [Bool.toNat_false]

theorem ADD_ZF (lhs rhs : Register) :
    (ADD lhs rhs).2.ZF = true ↔ toNat (ADD lhs rhs).1 = 0 := by
  have hz : (ADD lhs rhs).2.ZF = !((ADD lhs rhs).1.any id) := rfl
  rw [hz, toNat_eq_zero_iff]
  simp

theorem ADD_SF (lhs rhs : Register) : (ADD lhs rhs).2.SF = MSB (ADD lhs rhs).1 := rfl

theorem ADD_OF (lhs rhs : Register) :
    (ADD lhs rhs).2.OF = ((MSB lhs == MSB rhs) && (MSB (ADD lhs rhs).1 != MSB lhs)) := rfl

theorem SUB_fst_toNat (lhs rhs : Register) (h : rhs.length = lhs.length) :
    toNat (SUB lhs rhs).1
      = (toNat lhs + 2 ^ lhs.length - toNat rhs) % 2 ^ lhs.length := by
  show toNat (subChain lhs rhs true).1 = _
  rw [subChain_fst_toNat _ _ _ h.symm]
  have hb : toNat rhs < 2 ^ lhs.length := by
    have := toNat_lt rhs
    rwa [h] at this
  have h1 : (1 : Nat) ≤ 2 ^ lhs.length := Nat.one_le_two_pow
  have : toNat lhs + (2 ^ lhs.length - 1 - toNat rhs) + Bool.toNat true
      = toNat lhs + 2 ^ lhs.length - toNat rhs := by
    simp only [Bool.toNat_true]
    omega
  rw [this]

theorem SUB_length (lhs rhs : Register) (h : rhs.length = lhs.length) :
    (SUB lhs rhs).1.length = lhs.length := by
  show (subChain lhs rhs true).1.length = _
  exact subChain_length _ _ _ h.symm

theorem SUB_CF (lhs rhs : Register) (h : rhs.length = lhs.length) :
    (SUB lhs rhs).2.CF = decide (toNat lhs < toNat rhs) := by
  show (!(subChain lhs rhs true).2) = _
  rw [subChain_snd _ _ _ h.symm]
  have hb : toNat rhs < 2 ^ lhs.length := by
    have := toNat_lt rhs
    rwa [h] at this
  have h1 : (1 : Nat) ≤ 2 ^ lhs.length := Nat.one_le_two_pow
  simp only [Bool.toNat_true]
  rcases Nat.lt_or_ge (toNat lhs) (toNat rhs) with hab | hab
  · have hno : ¬ (2 ^ lhs.length ≤ toNat lhs + (2 ^ lhs.length - 1 - toNat rhs) + 1) := by
      omega
    rw [decide_eq_false hno, decide_eq_true hab]
    rfl
  · have hyes : 2 ^ lhs.length ≤ toNat lhs + (2 ^ lhs.length - 1 - toNat rhs) + 1 := by
      omega
    rw [decide_eq_true hyes, decide_eq_false (Nat.not_lt.mpr hab)]
    rfl

theorem SUB_ZF (lhs rhs : Register) :
    (SUB lhs rhs).2.ZF = true ↔ toNat (SUB lhs rhs).1 = 0 := by
  have hz : (SUB lhs rhs).2.ZF = !((SUB lhs rhs).1.any id) := rfl
  rw [hz, toNat_eq_zero_iff]
  simp

theorem SUB_SF (lhs rhs : Register) : (SUB lhs rhs).2.SF = MSB (SUB lhs rhs).1 := rfl

theorem SUB_OF (lhs rhs : Register) :
    (SUB lhs rhs).2.OF = ((MSB lhs != MSB rhs) && (MSB (SUB lhs rhs).1 != MSB lhs)) := rfl

/-- Subtracting the all-zero register is the identity on the bit pattern. -/
theorem SUB_zeroReg_fst (r : Register) (h : r.length = ARCHITECTURE) :
    (SUB r zeroReg).1 = r := by
  apply toNat_inj
  · rw [SUB_length r zeroReg (by simp [zeroReg, h])]
  · rw [SUB_fst_toNat r zeroReg (by simp [zeroReg, h]), toNat_zeroReg]
    have hlt : toNat r < 2 ^ r.length := toNat_lt r
    rw [Nat.sub_zero, Nat.add_mod_right, Nat.mod_eq_of_lt hlt]

/-- Flag state of a SUB (hence of a CMP) against the all-zero register:
never a borrow, zero iff the minuend is all-zero, sign the minuend MSB,
never a signed overflow. -/
theorem SUB_zeroReg_flags (r : Register) (h : r.length = ARCHITECTURE) :
    (SUB r zeroReg).2
      = { CF := false, ZF := !(r.any id), SF := MSB r, OF := false } := by
  have hlen : zeroReg.length = r.length := by simp [zeroReg, h]
  have hfst := SUB_zeroReg_fst r h
  have hcf : (SUB r zeroReg).2.CF = false := by
    rw [SUB_CF r zeroReg hlen, toNat_zeroReg]
    simp
  have hzf : (SUB r zeroReg).2.ZF = !(r.any id) := by
    show (!((subChain r zeroReg true).1.any id)) = _
    have : (subChain r zeroReg true).1 = r := hfst
    rw [this]
  have hsf : (SUB r zeroReg).2.SF = MSB r := by
    rw [SUB_SF, hfst]
  have hof : (SUB r zeroReg).2.OF = false := by
    rw [SUB_OF, hfst]
    simp
  cases hflags : (SUB r zeroReg).2
  rw [hflags] at hcf hzf hsf hof
  simp only at hcf hzf hsf hof
  rw [hcf, hzf, hsf, hof]

theorem CMP_zeroReg (r temp : Register) (h : r.length = ARCHITECTURE) :
    CMP r zeroReg temp
      = (r, { CF := false, ZF := !(r.any id), SF := MSB r, OF := false }) := by
  show SUB r zeroReg = _
  rw [Prod.ext_iff]
  exact ⟨SUB_zeroReg_fst r h, SUB_zeroReg_flags r h⟩

/-- Value of the INC ripple chain with carry-in 1: increment modulo 2^width. -/
theorem incChain_fst_toNat : ∀ (l : List Bool) (zf : Bool),
    toNat (incChain l true zf).1 = (toNat l + 1) % 2 ^ l.length := by
  intro l
  induction l with
  | nil => intro zf; simp [incChain, toNat]
  | cons x xs ih =>
    intro zf
    cases x with
    | false =>
      have hfa : FULL_ADDER false false true = (true, false) := rfl
      have hstep : (incChain (false :: xs) true zf).1 = true :: xs := by
        simp [incChain, hfa]
      have hxs := toNat_lt xs
      have hlt : toNat (false :: xs) + 1 < 2 ^ (false :: xs).length := by
        rw [toNat_cons, List.length_cons, pow_succ, Nat.mul_comm]
        simp only [Bool.toNat_false]
        omega
      rw [hstep, Nat.mod_eq_of_lt hlt, toNat_cons, toNat_cons]
      simp only [Bool.toNat_false, Bool.toNat_true]
      omega
    | true =>
      have hfa : FULL_ADDER true false true = (false, true) := rfl
      have hstep : (incChain (true :: xs) true zf).1
          = false :: (incChain xs true zf).1 := by
        simp [incChain, hfa]
      rw [hstep, toNat_cons, ih zf, toNat_cons, List.length_cons, pow_succ,
        Nat.mul_comm (2 ^ xs.length) 2]
      simp only [Bool.toNat_false, Bool.toNat_true]
      have harg : 1 + 2 * toNat xs + 1 = 2 * (toNat xs + 1) := by omega
      rw [harg, Nat.mul_mod_mul_left]
      omega

theorem incChain_length : ∀ (l : List Bool) (c zf : Bool),
    (incChain l c zf).1.length = l.length := by
  intro l
  induction l with
  | nil => intro c zf; simp [incChain]
  | cons x xs ih =>
    intro c zf
    by_cases hc : (CombinationalCircuits.FULL_ADDER x false c).2
    · simp [incChain, hc, ih]
    · simp [incChain, hc]

theorem INC_fst_toNat (f : Flags) (reg : Register) :
    toNat (INC f reg).1 = (toNat reg + 1) % 2 ^ reg.length := by
  show toNat (incChain reg true true).1 = _
  exact incChain_fst_toNat reg true

theorem INC_length (f : Flags) (reg : Register) :
    (INC f reg).1.length = reg.length := by
  show (incChain reg true true).1.length = _
  exact incChain_length reg true true

end ALU

end CpuSim

/-! ### Shifts and rotates -/

namespace CpuSim

theorem toNat_take (l : List Bool) : ∀ n : Nat,
    toNat (l.take n) = toNat l % 2 ^ n := by
  induction l with
  | nil => intro n; simp [toNat]
  | cons b bs ih =>
    intro n
    cases n with
    | zero => simp [toNat, Nat.mod_one]
    | succ n =>
      have hm : (0 : Nat) < 2 ^ n := Nat.pos_pow_of_pos n (by omega)
      have hmod : toNat bs % 2 ^ n < 2 ^ n := Nat.mod_lt _ hm
      rw [List.take_succ_cons, toNat_cons, toNat_cons, ih n, pow_succ,
        Nat.mul_comm (2 ^ n) 2]
      cases b with
      | false =>
        simp only [Bool.toNat_false, Nat.zero_add]
        rw [Nat.mul_mod_mul_left]
      | true =>
        simp only [Bool.toNat_true]
        have hdm : 2 ^ n * (toNat bs / 2 ^ n) + toNat bs % 2 ^ n = toNat bs :=
          Nat.div_add_mod _ _
        generalize hq : toNat bs / 2 ^ n = q at hdm
        generalize hr : toNat bs % 2 ^ n = r at hdm hmod ⊢
        have h1 : 1 + 2 * toNat bs = 1 + 2 * r + 2 * 2 ^ n * q := by
          rw [Nat.mul_assoc]
          omega
        rw [h1, Nat.add_mul_mod_self_left, Nat.mod_eq_of_lt (by omega)]

namespace ALU

open CombinationalCircuits

/-- Bit pattern produced by the bulk shift of SHL for 0 < count < ARCHITECTURE. -/
theorem shl_shifted_length (reg : Register) (count : Nat)
    (h : reg.length = ARCHITECTURE) (hc : count ≤ ARCHITECTURE) :
    (List.replicate count false ++ List.take (ARCHITECTURE - count) reg).length
      = ARCHITECTURE := by
  simp [List.length_append, List.length_take, h]
  omega

/-- Value of a one-bit logical left shift: doubling modulo 2^ARCHITECTURE. -/
theorem shl_one_toNat (reg : Register) (h : reg.length = ARCHITECTURE) :
    toNat (List.replicate 1 false ++ List.take (ARCHITECTURE - 1) reg)
      = 2 * toNat reg % 2 ^ ARCHITECTURE := by
  have hstep : (List.replicate 1 false ++ List.take (ARCHITECTURE - 1) reg)
      = false :: List.take (ARCHITECTURE - 1) reg := rfl
  rw [hstep, toNat_cons, toNat_take]
  simp only [Bool.toNat_false, Nat.zero_add]
  have hp : (2 : Nat) ^ ARCHITECTURE = 2 * 2 ^ (ARCHITECTURE - 1) := by
    show (2 : Nat) ^ 16 = 2 * 2 ^ 15
    norm_num
  rw [hp, Nat.mul_mod_mul_left]

/-- Full description of `SHL(reg, 1, zero, temp)` against the all-zero register:
both register outputs hold the shifted pattern, CF is cleared by the internal
CMP, ZF and SF describe the shifted pattern, and OF equals the new MSB. -/
theorem SHL_one (reg temp : Register) (h : reg.length = ARCHITECTURE) :
    SHL reg 1 zeroReg temp
      = (List.replicate 1 false ++ List.take (ARCHITECTURE - 1) reg,
          List.replicate 1 false ++ List.take (ARCHITECTURE - 1) reg,
          { CF := false,
            ZF := !((List.replicate 1 false ++ List.take (ARCHITECTURE - 1) reg).any id),
            SF := MSB (List.replicate 1 false ++ List.take (ARCHITECTURE - 1) reg),
            OF := MSB (List.replicate 1 false ++ List.take (ARCHITECTURE - 1) reg) }) := by
  have hone : (1 : Nat) ≠ 0 := by omega
  have hbig : ¬ (ARCHITECTURE ≤ 1) := by show ¬ (16 ≤ 1); omega
  have hlen : (List.replicate 1 false ++ List.take (ARCHITECTURE - 1) reg).length
      = ARCHITECTURE := shl_shifted_length reg 1 h (by show 1 ≤ 16; omega)
  simp only [SHL, if_neg hone, if_neg hbig]
  rw [CMP_zeroReg _ _ hlen]
  simp [Bool.xor_false]

end ALU

end CpuSim

/-! ### Rotation round-trip facts -/

namespace CpuSim

namespace ALU

theorem getD_concat : ∀ (ys : List Bool) (y : Bool),
    (ys ++ [y]).getD ys.length false = y := by
  intro ys
  induction ys with
  | nil => intro y; rfl
  | cons z zs ih => intro y; simpa using ih y

/-- A register of full width splits as its first 15 bits plus its top bit. -/
theorem exists_concat (l : Register) (h : l.length = ARCHITECTURE) :
    ∃ ys y, l = ys ++ [y] ∧ ys.length = ARCHITECTURE - 1 := by
  rcases List.eq_nil_or_concat l with hnil | ⟨ys, y, hc⟩
  · rw [hnil] at h
    simp [ARCHITECTURE] at h
  · refine ⟨ys, y, ?_, ?_⟩
    · rw [hc, List.concat_eq_append]
    · have h2 := h
      rw [hc, List.concat_eq_append] at h2
      simp [List.length_append] at h2
      omega

theorem rotl1_concat (ys : List Bool) (y : Bool)
    (h : ys.length = ARCHITECTURE - 1) :
    rotl1 (ys ++ [y]) = y :: ys := by
  rw [rotl1, ← h, getD_concat, List.dropLast_concat]

theorem rotl1_length (l : Register) (h : l.length = ARCHITECTURE) :
    (rotl1 l).length = ARCHITECTURE := by
  obtain ⟨ys, y, rfl, hys⟩ := exists_concat l h
  rw [rotl1_concat ys y hys]
  simpa using h

theorem rotr1_rotl1 (l : Register) (h : l.length = ARCHITECTURE) :
    rotr1 (rotl1 l) = l := by
  obtain ⟨ys, y, rfl, hys⟩ := exists_concat l h
  rw [rotl1_concat ys y hys, rotr1]
  simp

theorem rotlN_length : ∀ (n : Nat) (l : Register),
    l.length = ARCHITECTURE → (rotlN n l).length = ARCHITECTURE := by
  intro n
  induction n with
  | zero => intro l h; exact h
  | succ n ih => intro l h; exact ih (rotl1 l) (rotl1_length l h)

theorem rotrN_succ_outer : ∀ (n : Nat) (l : Register),
    rotrN (n + 1) l = rotr1 (rotrN n l) := by
  intro n
  induction n with
  | zero => intro l; rfl
  | succ n ih =>
    intro l
    show rotrN (n + 1) (rotr1 l) = _
    rw [ih (rotr1 l)]
    rfl

theorem rotrN_rotlN : ∀ (n : Nat) (l : Register),
    l.length = ARCHITECTURE → rotrN n (rotlN n l) = l := by
  intro n
  induction n with
  | zero => intro l _; rfl
  | succ n ih =>
    intro l h
    show rotrN (n + 1) (rotlN n (rotl1 l)) = l
    rw [rotrN_succ_outer, ih (rotl1 l) (rotl1_length l h), rotr1_rotl1 l h]

end ALU

end CpuSim

/-! ### The MUL loop -/

namespace CpuSim

namespace ALU

theorem mulLoop_spec : ∀ (bs : List Bool) (f : Flags) (lhs temp : Register),
    lhs.length = ARCHITECTURE → temp.length = ARCHITECTURE →
    ((mulLoop f lhs temp zeroReg bs).1.length = ARCHITECTURE
        ∧ (mulLoop f lhs temp zeroReg bs).2.1.length = ARCHITECTURE)
      ∧ toNat (mulLoop f lhs temp zeroReg bs).1
          = (toNat lhs + toNat temp * toNat bs) % 2 ^ ARCHITECTURE
      ∧ toNat (mulLoop f lhs temp zeroReg bs).2.1
          = toNat temp * 2 ^ bs.length % 2 ^ ARCHITECTURE := by
  intro bs
  induction bs with
  | nil =>
    intro f lhs temp hl ht
    have hlv : toNat lhs < 2 ^ ARCHITECTURE := by
      have := toNat_lt lhs
      rwa [hl] at this
    have htv : toNat temp < 2 ^ ARCHITECTURE := by
      have := toNat_lt temp
      rwa [ht] at this
    refine ⟨⟨hl, ht⟩, ?_, ?_⟩
    · show toNat lhs = _
      rw [toNat_nil, Nat.mul_zero, Nat.add_zero, Nat.mod_eq_of_lt hlv]
    · show toNat temp = _
      rw [List.length_nil, pow_zero, Nat.mul_one, Nat.mod_eq_of_lt htv]
  | cons b bs ih =>
    intro f lhs temp hl ht
    have hs := SHL_one temp temp ht
    have hstep : mulLoop f lhs temp zeroReg (b :: bs)
        = mulLoop (SHL temp 1 zeroReg temp).2.2
            (if b then ADD lhs temp else (lhs, f)).1
            (SHL temp 1 zeroReg temp).2.1 zeroReg bs := rfl
    have hshlen : (List.replicate 1 false ++ List.take (ARCHITECTURE - 1) temp).length
        = ARCHITECTURE := shl_shifted_length temp 1 ht (by show 1 ≤ 16; omega)
    have hshval : toNat (List.replicate 1 false ++ List.take (ARCHITECTURE - 1) temp)
        = 2 * toNat temp % 2 ^ ARCHITECTURE := shl_one_toNat temp ht
    have htl : temp.length = lhs.length := by rw [ht, hl]
    have ha1len : (if b then ADD lhs temp else (lhs, f)).1.length = ARCHITECTURE := by
      cases b
      · simpa using hl
      · simpa using (ADD_length lhs temp htl).trans hl
    have ha1val : toNat (if b then ADD lhs temp else (lhs, f)).1
        = (toNat lhs + b.toNat * toNat temp) % 2 ^ ARCHITECTURE := by
      cases b
      · have hlv : toNat lhs < 2 ^ ARCHITECTURE := by
          have := toNat_lt lhs
          rwa [hl] at this
        simpa [Bool.toNat_false] using (Nat.mod_eq_of_lt hlv).symm
      · simp only [if_pos, Bool.toNat_true, Nat.one_mul]
        rw [ADD_fst_toNat lhs temp htl, hl]
    have hs21 : (SHL temp 1 zeroReg temp).2.1
        = List.replicate 1 false ++ List.take (ARCHITECTURE - 1) temp := by
      rw [hs]
    rw [hstep, hs21]
    obtain ⟨⟨hL1, hL2⟩, hV1, hV2⟩ :=
      ih (SHL temp 1 zeroReg temp).2.2
        (if b then ADD lhs temp else (lhs, f)).1
        (List.replicate 1 false ++ List.take (ARCHITECTURE - 1) temp)
        ha1len hshlen
    refine ⟨⟨hL1, hL2⟩, ?_, ?_⟩
    · rw [hV1, ha1val, hshval, toNat_cons]
      have m1 : (toNat lhs + b.toNat * toNat temp) % 2 ^ ARCHITECTURE
          ≡ toNat lhs + b.toNat * toNat temp [MOD 2 ^ ARCHITECTURE] :=
        Nat.mod_modEq _ _
      have m2 : 2 * toNat temp % 2 ^ ARCHITECTURE
          ≡ 2 * toNat temp [MOD 2 ^ ARCHITECTURE] := Nat.mod_modEq _ _
      have m3 := m1.add (m2.mul_right (toNat bs))
      have e2 : toNat lhs + b.toNat * toNat temp + 2 * toNat temp * toNat bs
          = toNat lhs + toNat temp * (b.toNat + 2 * toNat bs) := by ring
      rw [← e2]
      exact m3
    · rw [hV2, hshval, List.length_cons]
      have m2 : 2 * toNat temp % 2 ^ ARCHITECTURE
          ≡ 2 * toNat temp [MOD 2 ^ ARCHITECTURE] := Nat.mod_modEq _ _
      have m4 := m2.mul_right (2 ^ bs.length)
      have e3 : 2 * toNat temp * 2 ^ bs.length = toNat temp * 2 ^ (bs.length + 1) := by
        rw [pow_succ]
        ring
      rw [← e3]
      exact m4

end ALU

end CpuSim

/-! ### Final flag state of the MUL loop and the DIV loop invariant -/

namespace CpuSim

namespace ALU

/-- On a non-empty multiplier bit list the flags delivered by the MUL loop are
exactly those of its last SHL step: CF cleared by the internal CMP, ZF and SF
describing the final shifted multiplicand, and OF equal to its MSB. -/
theorem mulLoop_flags : ∀ (bs : List Bool) (b : Bool) (f : Flags) (lhs temp : Register),
    lhs.length = ARCHITECTURE → temp.length = ARCHITECTURE →
    (mulLoop f lhs temp zeroReg (b :: bs)).2.2
      = { CF := false,
          ZF := !((mulLoop f lhs temp zeroReg (b :: bs)).2.1.any id),
          SF := MSB (mulLoop f lhs temp zeroReg (b :: bs)).2.1,
          OF := MSB (mulLoop f lhs temp zeroReg (b :: bs)).2.1 } := by
  intro bs
  induction bs with
  | nil =>
    intro b f lhs temp hl ht
    have hs := SHL_one temp temp ht
    have hstep : mulLoop f lhs temp zeroReg [b]
        = ((if b then ADD lhs temp else (lhs, f)).1,
            (SHL temp 1 zeroReg temp).2.1,
            (SHL temp 1 zeroReg temp).2.2) := rfl
    rw [hstep, hs]
  | cons b2 bs ih =>
    intro b f lhs temp hl ht
    have hs := SHL_one temp temp ht
    have hs21 : (SHL temp 1 zeroReg temp).2.1
        = List.replicate 1 false ++ List.take (ARCHITECTURE - 1) temp := by
      rw [hs]
    have hstep : mulLoop f lhs temp zeroReg (b :: b2 :: bs)
        = mulLoop (SHL temp 1 zeroReg temp).2.2
            (if b then ADD lhs temp else (lhs, f)).1
            (SHL temp 1 zeroReg temp).2.1 zeroReg (b2 :: bs) := rfl
    have htl : temp.length = lhs.length := by rw [ht, hl]
    have ha1len : (if b then ADD lhs temp else (lhs, f)).1.length = ARCHITECTURE := by
      cases b
      · simpa using hl
      · simpa using (ADD_length lhs temp htl).trans hl
    have hshlen : (List.replicate 1 false ++ List.take (ARCHITECTURE - 1) temp).length
        = ARCHITECTURE := shl_shifted_length temp 1 ht (by show 1 ≤ 16; omega)
    rw [hstep, hs21]
    exact ih b2 (SHL temp 1 zeroReg temp).2.2
      (if b then ADD lhs temp else (lhs, f)).1
      (List.replicate 1 false ++ List.take (ARCHITECTURE - 1) temp)
      ha1len hshlen

/-- Invariant of the DIV subtraction loop: with a non-zero divisor, enough
fuel and no overflow of the quotient counter, the loop adds the truncating
quotient of temp by rhs to the quotient register. -/
theorem divLoop_spec : ∀ (fuel : Nat) (f : Flags) (temp quot rhs : Register),
    temp.length = ARCHITECTURE → quot.length = ARCHITECTURE →
    rhs.length = ARCHITECTURE → 0 < toNat rhs →
    toNat temp / toNat rhs < fuel →
    toNat quot + toNat temp / toNat rhs < 2 ^ ARCHITECTURE →
    toNat (divLoop fuel f temp quot rhs).2.1
        = toNat quot + toNat temp / toNat rhs
      ∧ (divLoop fuel f temp quot rhs).2.1.length = ARCHITECTURE := by
  intro fuel
  induction fuel with
  | zero =>
    intro f temp quot rhs ht hq hr hnz hfuel hbound
    exact absurd hfuel (Nat.not_lt_zero _)
  | succ fuel ih =>
    intro f temp quot rhs ht hq hr hnz hfuel hbound
    have hrt : rhs.length = temp.length := by rw [hr, ht]
    have hcf := SUB_CF temp rhs hrt
    have hstep : divLoop (fuel + 1) f temp quot rhs
        = if (SUB temp rhs).2.CF then
            ((ADD (SUB temp rhs).1 rhs).1, quot, (ADD (SUB temp rhs).1 rhs).2)
          else
            divLoop fuel (INC (SUB temp rhs).2 quot).2 (SUB temp rhs).1
              (INC (SUB temp rhs).2 quot).1 rhs := rfl
    rcases Nat.lt_or_ge (toNat temp) (toNat rhs) with hlt | hge
    · have hcond : (SUB temp rhs).2.CF = true := by
        rw [hcf]
        exact decide_eq_true hlt
      rw [hstep, if_pos hcond]
      have hdiv : toNat temp / toNat rhs = 0 := Nat.div_eq_of_lt hlt
      exact ⟨by rw [hdiv, Nat.add_zero], hq⟩
    · have hcond : (SUB temp rhs).2.CF = false := by
        rw [hcf]
        exact decide_eq_false (Nat.not_lt.mpr hge)
      rw [hstep, if_neg (by rw [hcond]; exact Bool.false_ne_true)]
      have htv : toNat temp < 2 ^ ARCHITECTURE := by
        have := toNat_lt temp
        rwa [ht] at this
      have hs1 : toNat (SUB temp rhs).1 = toNat temp - toNat rhs := by
        rw [SUB_fst_toNat temp rhs hrt, ht]
        have h1 : toNat temp + 2 ^ ARCHITECTURE - toNat rhs
            = toNat temp - toNat rhs + 2 ^ ARCHITECTURE := by omega
        rw [h1, Nat.add_mod_right, Nat.mod_eq_of_lt (by omega)]
      have hs1len : (SUB temp rhs).1.length = ARCHITECTURE :=
        (SUB_length temp rhs hrt).trans ht
      have hdivstep : toNat temp / toNat rhs
          = (toNat temp - toNat rhs) / toNat rhs + 1 :=
        Nat.div_eq_sub_div hnz hge
      generalize hD : (toNat temp - toNat rhs) / toNat rhs = D at hdivstep
      generalize hE : toNat temp / toNat rhs = E at hdivstep hfuel hbound
      have hq1 : toNat (INC (SUB temp rhs).2 quot).1 = toNat quot + 1 := by
        rw [INC_fst_toNat, hq, Nat.mod_eq_of_lt (by omega)]
      have hq1len : (INC (SUB temp rhs).2 quot).1.length = ARCHITECTURE :=
        (INC_length _ quot).trans hq
      obtain ⟨hval, hlen⟩ := ih (INC (SUB temp rhs).2 quot).2 (SUB temp rhs).1
        (INC (SUB temp rhs).2 quot).1 rhs hs1len hq1len hr hnz
        (by rw [hs1, hD]; omega) (by rw [hq1, hs1, hD]; omega)
      refine ⟨?_, hlen⟩
      rw [hval, hq1, hs1, hD]
      omega

end ALU

end CpuSim

/-! ### DIV with a non-zero divisor -/

namespace CpuSim

namespace ALU

theorem zeroReg_length : zeroReg.length = ARCHITECTURE := by
  simp [zeroReg]

/-- With a non-zero divisor and the genuine all-zero register, DIV delivers
the truncating quotient in lhs and the flag state of the closing CMP with CF
and OF cleared. -/
theorem DIV_correct (lhs rhs quot temp : Register)
    (hl : lhs.length = ARCHITECTURE) (hr : rhs.length = ARCHITECTURE)
    (hnz : 0 < toNat rhs) :
    (DIV lhs rhs quot temp zeroReg).1.length = ARCHITECTURE
      ∧ toNat (DIV lhs rhs quot temp zeroReg).1 = toNat lhs / toNat rhs
      ∧ (DIV lhs rhs quot temp zeroReg).2.2.2
          = { CF := false,
              ZF := !((DIV lhs rhs quot temp zeroReg).1.any id),
              SF := MSB (DIV lhs rhs quot temp zeroReg).1,
              OF := false } := by
  have hc1 := CMP_zeroReg rhs temp hr
  have hany : rhs.any id = true := by
    cases hcase : rhs.any id with
    | true => rfl
    | false =>
      have : toNat rhs = 0 := (toNat_eq_zero_iff rhs).mpr hcase
      omega
  have hzf : (CMP rhs zeroReg temp).2.ZF = false := by
    rw [hc1]
    show (!(rhs.any id)) = false
    rw [hany]
    rfl
  obtain ⟨hQval, hQlen⟩ := divLoop_spec (toNat lhs + 1) (CMP rhs zeroReg temp).2
    lhs zeroReg rhs hl zeroReg_length hr hnz
    (Nat.lt_succ_of_le (Nat.div_le_self _ _))
    (by
      rw [toNat_zeroReg, Nat.zero_add]
      exact lt_of_le_of_lt (Nat.div_le_self _ _) (hl ▸ toNat_lt lhs))
  rw [toNat_zeroReg, Nat.zero_add] at hQval
  have hstep : DIV lhs rhs quot temp zeroReg
      = ((divLoop (toNat lhs + 1) (CMP rhs zeroReg temp).2 lhs zeroReg rhs).2.1,
          (divLoop (toNat lhs + 1) (CMP rhs zeroReg temp).2 lhs zeroReg rhs).2.1,
          (CMP (divLoop (toNat lhs + 1) (CMP rhs zeroReg temp).2 lhs zeroReg rhs).2.1
              zeroReg
              (divLoop (toNat lhs + 1) (CMP rhs zeroReg temp).2 lhs zeroReg rhs).1).1,
          { CF := false,
            ZF := (CMP (divLoop (toNat lhs + 1) (CMP rhs zeroReg temp).2 lhs zeroReg rhs).2.1
                zeroReg
                (divLoop (toNat lhs + 1) (CMP rhs zeroReg temp).2 lhs zeroReg rhs).1).2.ZF,
            SF := (CMP (divLoop (toNat lhs + 1) (CMP rhs zeroReg temp).2 lhs zeroReg rhs).2.1
                zeroReg
                (divLoop (toNat lhs + 1) (CMP rhs zeroReg temp).2 lhs zeroReg rhs).1).2.SF,
            OF := false }) := by
    show (if (CMP rhs zeroReg temp).2.ZF = true then _ else _) = _
    rw [hzf]
    simp [LSU.MOV]
  have hc2 := CMP_zeroReg
    (divLoop (toNat lhs + 1) (CMP rhs zeroReg temp).2 lhs zeroReg rhs).2.1
    (divLoop (toNat lhs + 1) (CMP rhs zeroReg temp).2 lhs zeroReg rhs).1 hQlen
  rw [hstep, hc2]
  exact ⟨hQlen, hQval, rfl⟩

end ALU

end CpuSim

/-! ### Claim theorems -/

namespace CpuSim

/-- C1: for every pair of 16-bit registers, ADD overwrites lhs with
(lhs + rhs) mod 2^16 through the ripple full-adder chain with carry-in 0,
sets CF iff the unsigned sum reaches 2^16, ZF iff every result bit is 0
(stated through the valuation), SF to the result MSB and
OF = (lhs.MSB_before == rhs.MSB) AND (SF != lhs.MSB_before); in particular
ADD of the INT16_MAX pattern and 1 gives the INT16_MIN pattern with OF = 1
and SF = 1. -/
theorem C1_ADD_ripple_spec (lhs rhs : Register)
    (hl : lhs.length = ARCHITECTURE) (hr : rhs.length = ARCHITECTURE) :
    toNat (ALU.ADD lhs rhs).1 = (toNat lhs + toNat rhs) % 2 ^ ARCHITECTURE
    ∧ ((ALU.ADD lhs rhs).2.CF = true ↔ 2 ^ ARCHITECTURE ≤ toNat lhs + toNat rhs)
    ∧ ((ALU.ADD lhs rhs).2.ZF = true ↔ toNat (ALU.ADD lhs rhs).1 = 0)
    ∧ (ALU.ADD lhs rhs).2.SF = MSB (ALU.ADD lhs rhs).1
    ∧ (ALU.ADD lhs rhs).2.OF
        = ((MSB lhs == MSB rhs) && (MSB (ALU.ADD lhs rhs).1 != MSB lhs))
    ∧ ALU.ADD (ofNat ARCHITECTURE 32767) (ofNat ARCHITECTURE 1)
        = (ofNat ARCHITECTURE 32768,
            { CF := false, ZF := false, SF := true, OF := true }) := by
  refine ⟨?_, ?_, ALU.ADD_ZF lhs rhs, ALU.ADD_SF lhs rhs, ALU.ADD_OF lhs rhs,
    by decide⟩
  · rw [ALU.ADD_fst_toNat lhs rhs (hr.trans hl.symm), hl]
  · rw [ALU.ADD_CF lhs rhs (hr.trans hl.symm), hl]
    exact decide_eq_true_iff

/-- Witness for C1 at lhs = 5, rhs = 3. -/
theorem C1_ADD_ripple_spec_witness :
    ((ofNat ARCHITECTURE 5).length = ARCHITECTURE
        ∧ (ofNat ARCHITECTURE 3).length = ARCHITECTURE)
    ∧ toNat (ALU.ADD (ofNat ARCHITECTURE 5) (ofNat ARCHITECTURE 3)).1
        = (toNat (ofNat ARCHITECTURE 5) + toNat (ofNat ARCHITECTURE 3)) % 2 ^ ARCHITECTURE :=
  ⟨⟨by decide, by decide⟩,
    (C1_ADD_ripple_spec (ofNat ARCHITECTURE 5) (ofNat ARCHITECTURE 3)
      (by decide) (by decide)).1⟩

/-- C2: for every pair of 16-bit registers, SUB overwrites lhs with
(lhs - rhs) mod 2^16 (stated as (lhs + 2^16 - rhs) mod 2^16 over naturals)
via the full-adder chain on inverted rhs bits with carry-in 1, sets CF iff
unsigned lhs < unsigned rhs (borrow), ZF iff the result is all zeros, SF to
the result MSB and OF = (lhs.MSB_before != rhs.MSB) AND (SF != lhs.MSB_before);
in particular SUB of the INT16_MIN pattern and 1 gives the INT16_MAX pattern
with OF = 1. -/
theorem C2_SUB_twos_complement_spec (lhs rhs : Register)
    (hl : lhs.length = ARCHITECTURE) (hr : rhs.length = ARCHITECTURE) :
    toNat (ALU.SUB lhs rhs).1
        = (toNat lhs + 2 ^ ARCHITECTURE - toNat rhs) % 2 ^ ARCHITECTURE
    ∧ ((ALU.SUB lhs rhs).2.CF = true ↔ toNat lhs < toNat rhs)
    ∧ ((ALU.SUB lhs rhs).2.ZF = true ↔ toNat (ALU.SUB lhs rhs).1 = 0)
    ∧ (ALU.SUB lhs rhs).2.SF = MSB (ALU.SUB lhs rhs).1
    ∧ (ALU.SUB lhs rhs).2.OF
        = ((MSB lhs != MSB rhs) && (MSB (ALU.SUB lhs rhs).1 != MSB lhs))
    ∧ ALU.SUB (ofNat ARCHITECTURE 32768) (ofNat ARCHITECTURE 1)
        = (ofNat ARCHITECTURE 32767,
            { CF := false, ZF := false, SF := false, OF := true }) := by
  refine ⟨?_, ?_, ALU.SUB_ZF lhs rhs, ALU.SUB_SF lhs rhs, ALU.SUB_OF lhs rhs,
    by decide⟩
  · rw [ALU.SUB_fst_toNat lhs rhs (hr.trans hl.symm), hl]
  · rw [ALU.SUB_CF lhs rhs (hr.trans hl.symm)]
    exact decide_eq_true_iff

/-- Witness for C2 at lhs = 9, rhs = 12. -/
theorem C2_SUB_twos_complement_spec_witness :
    ((ofNat ARCHITECTURE 9).length = ARCHITECTURE
        ∧ (ofNat ARCHITECTURE 12).length = ARCHITECTURE)
    ∧ ((ALU.SUB (ofNat ARCHITECTURE 9) (ofNat ARCHITECTURE 12)).2.CF = true
        ↔ toNat (ofNat ARCHITECTURE 9) < toNat (ofNat ARCHITECTURE 12)) :=
  ⟨⟨by decide, by decide⟩,
    (C2_SUB_twos_complement_spec (ofNat ARCHITECTURE 9) (ofNat ARCHITECTURE 12)
      (by decide) (by decide)).2.1⟩

/-- C3: dividing by a register whose value is zero (with the zero register
holding the all-zero pattern) is signalled purely through the flag register:
ZF = CF = OF = true, SF = false, and the dividend register is zeroed.  The
embedding of DIV is a total function into registers and flags, mirroring the
`void`, `noexcept` member function: there is no return code and no exception
channel. -/
theorem C3_DIV_by_zero_flags (lhs rhs quot temp : Register)
    (hr : rhs.length = ARCHITECTURE) (hz : toNat rhs = 0) :
    (ALU.DIV lhs rhs quot temp zeroReg).1 = zeroReg
    ∧ (ALU.DIV lhs rhs quot temp zeroReg).2.2.2
        = { CF := true, ZF := true, SF := false, OF := true } := by
  have hany : rhs.any id = false := (toNat_eq_zero_iff rhs).mp hz
  have hc1 := ALU.CMP_zeroReg rhs temp hr
  have hzf : (ALU.CMP rhs zeroReg temp).2.ZF = true := by
    rw [hc1]
    show (!(rhs.any id)) = true
    rw [hany]
    rfl
  have hstep : ALU.DIV lhs rhs quot temp zeroReg
      = (LSU.MOV lhs zeroReg, quot, (ALU.CMP rhs zeroReg temp).1,
          { CF := true, ZF := true, SF := false, OF := true }) := by
    show (if (ALU.CMP rhs zeroReg temp).2.ZF = true then _ else _) = _
    rw [hzf]
    simp
  rw [hstep]
  exact ⟨rfl, rfl⟩

/-- Witness for C3 at lhs = 7, rhs = 0. -/
theorem C3_DIV_by_zero_flags_witness :
    ((ofNat ARCHITECTURE 0).length = ARCHITECTURE ∧ toNat (ofNat ARCHITECTURE 0) = 0)
    ∧ (ALU.DIV (ofNat ARCHITECTURE 7) (ofNat ARCHITECTURE 0) zeroReg zeroReg zeroReg).1
        = zeroReg :=
  ⟨⟨by decide, by decide⟩,
    (C3_DIV_by_zero_flags (ofNat ARCHITECTURE 7) (ofNat ARCHITECTURE 0) zeroReg zeroReg
      (by decide) (by decide)).1⟩

/-- C4 (evaluation at the failing input): the claim says that after
`SHL(reg, count, zero, temp)` the carry flag equals the bit originally at
index ARCHITECTURE - count.  For reg = 0x8000 and count = 1 that bit is 1,
yet the code delivers CF = 0: the saved shifted-out bit is overwritten by the
internal `CMP(reg, zero, temp)`, whose subtraction of the all-zero register
never borrows.  This contradicts the documentation comment of SHL in the
source (`CF: Last bit shifted out of MSB`). -/
theorem C4_SHL_carry_clobbered :
    (ofNat ARCHITECTURE 32768).getD (ARCHITECTURE - 1) false = true
    ∧ (ALU.SHL (ofNat ARCHITECTURE 32768) 1 zeroReg zeroReg).2.2.CF = false := by
  decide

/-- C5 (evaluation at the failing input): negating the INT16_MIN pattern
0x8000 leaves the bit pattern unchanged, as claimed, but the overflow flag
comes out false, not true: the source computes `OF = reg.MSB() && ZF` after a
CMP against the all-zero register, and a result with ZF set has a clear MSB,
so this conjunction never holds.  This contradicts the documentation comment
of NEG in the source (`OF: Set if negating the most negative value`). -/
theorem C5_NEG_min_overflow :
    (ALU.NEG (ofNat ARCHITECTURE 32768) zeroReg zeroReg).1 = ofNat ARCHITECTURE 32768
    ∧ (ALU.NEG (ofNat ARCHITECTURE 32768) zeroReg zeroReg).2.2.OF = false := by
  decide

end CpuSim

namespace CpuSim

/-- C6: with a non-zero divisor and the all-zero register in `zero`, the
repeated-subtraction loop of DIV terminates (the embedding is a total
function, with fuel provably exceeding the iteration count) and overwrites
lhs with the unsigned truncating quotient; afterwards ZF holds iff the
quotient is zero, SF is the quotient MSB, and CF = OF = 0.  In particular
DIV of 42 by 4 leaves 10 in lhs. -/
theorem C6_DIV_repeated_subtraction (lhs rhs quot temp : Register)
    (hl : lhs.length = ARCHITECTURE) (hr : rhs.length = ARCHITECTURE)
    (hnz : 0 < toNat rhs) :
    toNat (ALU.DIV lhs rhs quot temp zeroReg).1 = toNat lhs / toNat rhs
    ∧ ((ALU.DIV lhs rhs quot temp zeroReg).2.2.2.ZF = true
        ↔ toNat (ALU.DIV lhs rhs quot temp zeroReg).1 = 0)
    ∧ (ALU.DIV lhs rhs quot temp zeroReg).2.2.2.SF
        = MSB (ALU.DIV lhs rhs quot temp zeroReg).1
    ∧ (ALU.DIV lhs rhs quot temp zeroReg).2.2.2.CF = false
    ∧ (ALU.DIV lhs rhs quot temp zeroReg).2.2.2.OF = false
    ∧ toNat (ALU.DIV (ofNat ARCHITECTURE 42) (ofNat ARCHITECTURE 4) quot temp zeroReg).1
        = 10 := by
  obtain ⟨hlen, hval, hflags⟩ := ALU.DIV_correct lhs rhs quot temp hl hr hnz
  refine ⟨hval, ?_, ?_, ?_, ?_, ?_⟩
  · rw [hflags]
    show (!((ALU.DIV lhs rhs quot temp zeroReg).1.any id)) = true ↔ _
    rw [toNat_eq_zero_iff]
    simp
  · rw [hflags]
  · rw [hflags]
  · rw [hflags]
  · obtain ⟨_, hv42, _⟩ := ALU.DIV_correct (ofNat ARCHITECTURE 42)
      (ofNat ARCHITECTURE 4) quot temp (by decide) (by decide) (by decide)
    rw [hv42]
    decide

/-- Witness for C6 at lhs = 42, rhs = 4. -/
theorem C6_DIV_repeated_subtraction_witness :
    ((ofNat ARCHITECTURE 42).length = ARCHITECTURE
        ∧ (ofNat ARCHITECTURE 4).length = ARCHITECTURE
        ∧ 0 < toNat (ofNat ARCHITECTURE 4))
    ∧ toNat (ALU.DIV (ofNat ARCHITECTURE 42) (ofNat ARCHITECTURE 4) zeroReg zeroReg zeroReg).1
        = toNat (ofNat ARCHITECTURE 42) / toNat (ofNat ARCHITECTURE 4) :=
  ⟨⟨by decide, by decide, by decide⟩,
    (C6_DIV_repeated_subtraction (ofNat ARCHITECTURE 42) (ofNat ARCHITECTURE 4)
      zeroReg zeroReg (by decide) (by decide) (by decide)).1⟩

/-- C7: with the all-zero register in `zero`, MUL overwrites lhs with
(lhs * rhs) mod 2^16 by shift-and-add over the multiplier bits; in
particular a zero multiplicand gives 0 for every multiplier, and
MUL(6, 7) yields 42. -/
theorem C7_MUL_shift_add (f : Flags) (lhs rhs temp : Register)
    (hl : lhs.length = ARCHITECTURE) (hr : rhs.length = ARCHITECTURE)
    (ht : temp.length = ARCHITECTURE) :
    toNat (ALU.MUL f lhs rhs temp zeroReg).1
        = toNat lhs * toNat rhs % 2 ^ ARCHITECTURE
    ∧ (toNat lhs = 0 → toNat (ALU.MUL f lhs rhs temp zeroReg).1 = 0)
    ∧ toNat (ALU.MUL f (ofNat ARCHITECTURE 6) (ofNat ARCHITECTURE 7) temp zeroReg).1
        = 42 := by
  have hmain : toNat (ALU.MUL f lhs rhs temp zeroReg).1
      = toNat lhs * toNat rhs % 2 ^ ARCHITECTURE := by
    have h1 := (ALU.mulLoop_spec rhs f zeroReg lhs ALU.zeroReg_length hl).2.1
    rw [toNat_zeroReg, Nat.zero_add] at h1
    exact h1
  refine ⟨hmain, ?_, ?_⟩
  · intro h0
    rw [hmain, h0, Nat.zero_mul, Nat.zero_mod]
  · have h2 := (ALU.mulLoop_spec (ofNat ARCHITECTURE 7) f zeroReg
      (ofNat ARCHITECTURE 6) ALU.zeroReg_length (by decide)).2.1
    show toNat (ALU.mulLoop f zeroReg (ofNat ARCHITECTURE 6) zeroReg (ofNat ARCHITECTURE 7)).1
        = 42
    rw [h2]
    decide

/-- Witness for C7 at lhs = 6, rhs = 7, temp = 0. -/
theorem C7_MUL_shift_add_witness :
    ((ofNat ARCHITECTURE 6).length = ARCHITECTURE
        ∧ (ofNat ARCHITECTURE 7).length = ARCHITECTURE
        ∧ zeroReg.length = ARCHITECTURE)
    ∧ toNat (ALU.MUL { CF := false, ZF := false, SF := false, OF := false }
          (ofNat ARCHITECTURE 6) (ofNat ARCHITECTURE 7) zeroReg zeroReg).1
        = toNat (ofNat ARCHITECTURE 6) * toNat (ofNat ARCHITECTURE 7) % 2 ^ ARCHITECTURE :=
  ⟨⟨by decide, by decide, by decide⟩,
    (C7_MUL_shift_add { CF := false, ZF := false, SF := false, OF := false }
      (ofNat ARCHITECTURE 6) (ofNat ARCHITECTURE 7) zeroReg
      (by decide) (by decide) (by decide)).1⟩

/-- C8: rotating a 16-bit register left by any 8-bit count and then right by
the same count (both counts reduced mod ARCHITECTURE by the code) restores
the original bit pattern; in particular 0b1001 rotated left by 2 and back
right by 2 returns to 0b1001. -/
theorem C8_ROL_ROR_roundtrip (reg temp temp2 : Register) (k : Nat)
    (h : reg.length = ARCHITECTURE) (hk : k < 256) :
    (ALU.ROR (ALU.ROL reg k zeroReg temp).1 k zeroReg temp2).1 = reg
    ∧ (ALU.ROR (ALU.ROL (ofNat ARCHITECTURE 9) 2 zeroReg zeroReg).1 2 zeroReg zeroReg).1
        = ofNat ARCHITECTURE 9 := by
  constructor
  · by_cases hc : k % ARCHITECTURE = 0
    · have h1 : (ALU.ROL reg k zeroReg temp).1 = reg := by
        simp [ALU.ROL, hc]
      rw [h1]
      simp [ALU.ROR, hc]
    · have h1 : (ALU.ROL reg k zeroReg temp).1 = ALU.rotlN (k % ARCHITECTURE) reg := by
        simp [ALU.ROL, hc]
      have h2 : (ALU.ROR (ALU.rotlN (k % ARCHITECTURE) reg) k zeroReg temp2).1
          = ALU.rotrN (k % ARCHITECTURE) (ALU.rotlN (k % ARCHITECTURE) reg) := by
        simp [ALU.ROR, hc]
      rw [h1, h2, ALU.rotrN_rotlN _ _ h]
  · decide

/-- Witness for C8 at reg = 0b1001, k = 2. -/
theorem C8_ROL_ROR_roundtrip_witness :
    ((ofNat ARCHITECTURE 9).length = ARCHITECTURE ∧ 2 < 256)
    ∧ (ALU.ROR (ALU.ROL (ofNat ARCHITECTURE 9) 2 zeroReg zeroReg).1 2 zeroReg zeroReg).1
        = ofNat ARCHITECTURE 9 :=
  ⟨⟨by decide, by decide⟩,
    (C8_ROL_ROR_roundtrip (ofNat ARCHITECTURE 9) zeroReg zeroReg 2
      (by decide) (by decide)).1⟩

/-- C9: INC and DEC never assign the carry flag - for every register value
and every prior flag state, CF after the call equals CF before, including the
wrap-around inputs (the all-ones pattern for INC, the all-zero pattern for
DEC), which are covered by the universal quantifier. -/
theorem C9_INC_DEC_preserve_CF (f : Flags) (reg : Register) :
    (ALU.INC f reg).2.CF = f.CF ∧ (ALU.DEC f reg).2.CF = f.CF :=
  ⟨rfl, rfl⟩

/-- C10: with pairwise-distinct registers and the all-zero register in
`zero`, every MUL call ends with the same flag state regardless of operands:
the last flag write is the 16th SHL of the multiplicand copy, whose shifted
value is always 0 mod 2^16, and the SHL-internal CMP against zero clears CF;
hence ZF = true, SF = false, CF = false, OF = false - the flags never
describe the product. -/
theorem C10_MUL_constant_flags (f : Flags) (lhs rhs temp : Register)
    (hl : lhs.length = ARCHITECTURE) (hr : rhs.length = ARCHITECTURE)
    (ht : temp.length = ARCHITECTURE) :
    (ALU.MUL f lhs rhs temp zeroReg).2.2
      = { CF := false, ZF := true, SF := false, OF := false } := by
  cases rhs with
  | nil =>
    rw [List.length_nil] at hr
    exact absurd hr.symm (by decide)
  | cons b bs =>
    obtain ⟨⟨hL1, hL2⟩, hV1, hV2⟩ :=
      ALU.mulLoop_spec (b :: bs) f zeroReg lhs ALU.zeroReg_length hl
    have hflags := ALU.mulLoop_flags bs b f zeroReg lhs ALU.zeroReg_length hl
    have hTval : toNat (ALU.mulLoop f zeroReg lhs zeroReg (b :: bs)).2.1 = 0 := by
      rw [hV2, hr]
      exact Nat.mul_mod_left _ _
    have hT : (ALU.mulLoop f zeroReg lhs zeroReg (b :: bs)).2.1 = zeroReg :=
      toNat_replicate_eq_zero_of _ hL2 hTval
    show (ALU.mulLoop f zeroReg lhs zeroReg (b :: bs)).2.2 = _
    rw [hflags, hT]
    decide

/-- Witness for C10 at lhs = 3, rhs = 5, temp = 0. -/
theorem C10_MUL_constant_flags_witness :
    ((ofNat ARCHITECTURE 3).length = ARCHITECTURE
        ∧ (ofNat ARCHITECTURE 5).length = ARCHITECTURE
        ∧ zeroReg.length = ARCHITECTURE)
    ∧ (ALU.MUL { CF := true, ZF := false, SF := true, OF := true }
          (ofNat ARCHITECTURE 3) (ofNat ARCHITECTURE 5) zeroReg zeroReg).2.2
        = { CF := false, ZF := true, SF := false, OF := false } :=
  ⟨⟨by decide, by decide, by decide⟩,
    C10_MUL_constant_flags { CF := true, ZF := false, SF := true, OF := true }
      (ofNat ARCHITECTURE 3) (ofNat ARCHITECTURE 5) zeroReg
      (by decide) (by decide) (by decide)⟩

end CpuSim
